import Mathlib

/-!
Verification of the datebook holiday-computation pipeline
(src/datebook/calendar.rs, src/datebook/timebase.rs, src/lib.rs).

The Rust code is shallowly embedded: chrono's day-precision `NaiveDate` becomes
a `Date` structure of year/month/day naturals with proleptic-Gregorian day
counting; fallible paths are made explicit with `Except RustError`, whose
`panicked` constructor models a Rust panic (an `unwrap` on `None`/`Err`, an
out-of-bounds index, an arithmetic underflow) and whose `err` constructor
models a returned `Result::Err` value.  The embedded static resource tables
(`resources/base.csv`, `resources/equinox_base_dates.csv`) are not part of the
sources; their parsed rows are reconstructed from the specification and the
pinned test outputs, as noted at their definitions.
-/

deriving instance DecidableEq for Except

namespace Datebook

/-- Outcome of a fallible Rust computation: `panicked` models a panic
(an `unwrap` failure, an out-of-bounds index, an integer underflow), while
`err` models a returned `Result::Err` value. -/
inductive RustError where
  | panicked (msg : String)
  | err (msg : String)
deriving DecidableEq, Repr

/-- chrono's `Weekday` enumeration. -/
inductive Weekday where
  | mon | tue | wed | thu | fri | sat | sun
deriving DecidableEq, Repr

/-- A calendar date at day precision, as chrono's `NaiveDate`.  Valid dates
(see `Date.Valid`) are in bijection with `NaiveDate` values in the common
year range. -/
structure Date where
  year : Nat
  month : Nat
  day : Nat
deriving DecidableEq, Repr

/-- Gregorian leap-year test. -/
def isLeap (y : Nat) : Bool :=
  (y % 4 == 0 && y % 100 != 0) || y % 400 == 0

/-- Number of days of month `m` of year `y` (0 for a month outside 1..12). -/
def daysInMonth (y m : Nat) : Nat :=
  match m with
  | 1 => 31
  | 2 => if isLeap y then 29 else 28
  | 3 => 31
  | 4 => 30
  | 5 => 31
  | 6 => 30
  | 7 => 31
  | 8 => 31
  | 9 => 30
  | 10 => 31
  | 11 => 30
  | 12 => 31
  | _ => 0

/-- Days of year `y` that lie strictly before month `m` (so 0 for January). -/
def daysBefore (y : Nat) : Nat → Nat
  | 0 => 0
  | 1 => 0
  | m + 1 => daysBefore y m + daysInMonth y m

/-- Days strictly before January 1st of year `y` in the proleptic Gregorian
calendar (day 1 of year 1 is day number 1, a Monday). -/
def yearBase (y : Nat) : Nat :=
  365 * (y - 1) + (y - 1) / 4 + (y - 1) / 400 - (y - 1) / 100

/-- Day number of a date (rata die).  Dates compare, advance and take weekdays
through this count, exactly as `NaiveDate` does at day precision. -/
def Date.toOrd (dt : Date) : Nat :=
  yearBase dt.year + daysBefore dt.year dt.month + dt.day

/-- Weekday of a date: day 1 of year 1 is a Monday, and weekdays cycle with
period 7 over the day count. -/
def Date.weekday (dt : Date) : Weekday :=
  match dt.toOrd % 7 with
  | 0 => .sun
  | 1 => .mon
  | 2 => .tue
  | 3 => .wed
  | 4 => .thu
  | 5 => .fri
  | _ => .sat

/-- The next calendar day (`date + Duration::days(1)` on valid dates). -/
def Date.next (dt : Date) : Date :=
  if dt.day < daysInMonth dt.year dt.month then ⟨dt.year, dt.month, dt.day + 1⟩
  else if dt.month < 12 then ⟨dt.year, dt.month + 1, 1⟩
  else ⟨dt.year + 1, 1, 1⟩

/-- The date reached after `k` single-day steps. -/
def Date.iter (k : Nat) (dt : Date) : Date :=
  match k with
  | 0 => dt
  | k + 1 => Date.iter k dt.next

/-- A structurally well-formed calendar date (what `NaiveDate` can hold). -/
def Date.Valid (dt : Date) : Prop :=
  1 ≤ dt.month ∧ dt.month ≤ 12 ∧ 1 ≤ dt.day ∧ dt.day ≤ daysInMonth dt.year dt.month

instance (dt : Date) : Decidable dt.Valid := by
  unfold Date.Valid; infer_instance

/-- Strict chronological order on dates (`NaiveDate`'s `Ord`), lexicographic
on year, month, day. -/
def Date.ltb (a b : Date) : Bool :=
  decide (a.year < b.year) ||
    (a.year == b.year &&
      (decide (a.month < b.month) || (a.month == b.month && decide (a.day < b.day))))

/-- Non-strict chronological order on dates. -/
def Date.leb (a b : Date) : Bool := !(Date.ltb b a)

/-- Strict chronological order as a proposition. -/
def Date.Lt (a b : Date) : Prop :=
  a.year < b.year ∨ (a.year = b.year ∧ (a.month < b.month ∨ (a.month = b.month ∧ a.day < b.day)))

instance (a b : Date) : Decidable (Date.Lt a b) := by
  unfold Date.Lt; infer_instance

/-! String helpers.  They are written structurally over character lists so the
kernel can evaluate them; each embeds the Rust/std string operation named in
its comment, for the ASCII inputs the static data uses. -/

/-- Split a character list at every occurrence of `sep` (as `str::split`). -/
def splitChar (sep : Char) : List Char → List (List Char)
  | [] => [[]]
  | c :: cs =>
    let rest := splitChar sep cs
    if c = sep then [] :: rest
    else match rest with
      | [] => [[c]]
      | r :: rs => (c :: r) :: rs

/-- Split a string at every occurrence of `sep`. -/
def splitStr (sep : Char) (s : String) : List String :=
  (splitChar sep s.data).map String.mk

/-- ASCII lower-casing of one character (as `char::to_lowercase` on ASCII). -/
def lowerChar (c : Char) : Char :=
  if 'A' ≤ c ∧ c ≤ 'Z' then Char.ofNat (c.toNat + 32) else c

/-- ASCII lower-casing (as `str::to_lowercase` on ASCII input). -/
def lowerStr (s : String) : String :=
  String.mk (s.data.map lowerChar)

/-- ASCII whitespace test used by `str::trim`. -/
def isWsChar (c : Char) : Bool :=
  c = ' ' || c = '\t' || c = '\n' || c = '\r'

/-- Strip leading and trailing whitespace (as `str::trim` on ASCII input). -/
def trimStr (s : String) : String :=
  String.mk (((s.data.dropWhile isWsChar).reverse.dropWhile isWsChar).reverse)

/-- Value of a decimal digit string, `none` when empty or not all digits. -/
def digitsToNat : List Char → Option Nat
  | [] => none
  | cs => go cs 0
where
  go : List Char → Nat → Option Nat
    | [], acc => some acc
    | c :: cs, acc =>
      if c.isDigit then go cs (acc * 10 + (c.toNat - 48)) else none

/-- `str::parse::<u32>`: decimal digits fitting in 32 bits, otherwise `Err`
(a leading sign is not used by any of the static data). -/
def parseU32 (s : String) : Option Nat :=
  match digitsToNat s.data with
  | some v => if v < 4294967296 then some v else none
  | none => none

/-- `str::parse::<bool>`: exactly the strings "true" and "false". -/
def parseBool (s : String) : Option Bool :=
  if s = "true" then some true else if s = "false" then some false else none

/-! Data model of timebase.rs. -/

/-- timebase.rs `Condition`: the relative-rule sub-fields, kept as the raw
strings the CSV provides (they are only interpreted in `get_relative_date`). -/
structure Condition where
  month : String
  n : Nat
  weekday : String
deriving DecidableEq, Repr

/-- timebase.rs `BaseHolyday` (sic): one parsed row of the base schedule. -/
structure BaseHolyday where
  name : String
  date : Option String
  relative : Bool
  condition : Option Condition
deriving DecidableEq, Repr

/-- timebase.rs `EquinoxDay`: one named equinox with its "MM/DD" date text. -/
structure EquinoxDay where
  name : String
  date : String
deriving DecidableEq, Repr

/-- timebase.rs `Equinox`: the two equinoxes recorded for one year. -/
structure Equinox where
  year : Nat
  equinox : List EquinoxDay
deriving DecidableEq, Repr

/-- One iteration body of the record loop in `get_schedule`: build a
`BaseHolyday` from the fields of one CSV record.  Indexing `m[0]`..`m[3]`
panics when the record has fewer than four fields; when the condition field is
non-empty it is split on ':' and `c[0]`..`c[2]` panic when fewer than three
parts result.  A relative flag that does not parse as a bool silently becomes
`false`, and an occurrence count that does not parse as a u32 silently
becomes `0` (the `Err(_) =>` arms in timebase.rs lines 71-84). -/
def parseBaseRow (m : List String) : Except RustError BaseHolyday :=
  match m with
  | m0 :: m1 :: m2 :: m3 :: _ =>
    let relative := (parseBool m2).getD false
    let date := if m1 = "" then none else some m1
    if m3 = "" then
      .ok { name := m0, date := date, relative := relative, condition := none }
    else
      match splitStr ':' m3 with
      | c0 :: c1 :: c2 :: _ =>
        .ok { name := m0, date := date, relative := relative,
              condition := some ⟨c0, (parseU32 c1).getD 0, c2⟩ }
      | _ => .error (.panicked "index out of bounds")
  | _ => .error (.panicked "index out of bounds")

/-- The record loop of `get_schedule`, over the already-read CSV records
(header excluded, as `csv::Reader::records` yields them): a record-level read
error is returned as `Result::Err`, otherwise each record is parsed in order. -/
def scheduleRows : List (Except String (List String)) → Except RustError (List BaseHolyday)
  | [] => .ok []
  | .error e :: _ => .error (.err e)
  | .ok m :: rest => do
    let b ← parseBaseRow m
    let bs ← scheduleRows rest
    pure (b :: bs)

/-- Modelled from the spec: the parsed records of the embedded base schedule
resource `resources/base.csv`, which is not among the sources.  The rows are
reconstructed from the spec (base table columns name, optional "MM/DD" date,
relative flag, optional "Month:N:Weekday" condition) and from the fourteen
non-substitute, non-equinox holidays pinned by the 2024 outputs in the
calendar.rs tests. -/
def baseCsvRows : List (Except String (List String)) := [
  .ok ["元旦", "01/01", "false", ""],
  .ok ["成人の日", "", "true", "January:2:Monday"],
  .ok ["建国記念の日", "02/11", "false", ""],
  .ok ["天皇誕生日", "02/23", "false", ""],
  .ok ["昭和の日", "04/29", "false", ""],
  .ok ["憲法記念日", "05/03", "false", ""],
  .ok ["みどりの日", "05/04", "false", ""],
  .ok ["こどもの日", "05/05", "false", ""],
  .ok ["海の日", "", "true", "July:3:Monday"],
  .ok ["山の日", "08/11", "false", ""],
  .ok ["敬老の日", "", "true", "September:3:Monday"],
  .ok ["スポーツの日", "", "true", "October:2:Monday"],
  .ok ["文化の日", "11/03", "false", ""],
  .ok ["勤労感謝の日", "11/23", "false", ""]]

/-- timebase.rs `get_schedule` applied to the embedded base schedule. -/
def get_schedule : Except RustError (List BaseHolyday) :=
  scheduleRows baseCsvRows

/-- The second loop of `get_equinox_dates`: for each surviving record, the
year field is parsed with `.unwrap()` (panicking on failure) and the two
equinox entries are built from fields 1 and 2 (panicking when the record has
fewer than three fields). -/
def equinoxRecords : List (List String) → Except RustError (List Equinox)
  | [] => .ok []
  | m :: rest =>
    match m with
    | ys :: d1 :: d2 :: _ =>
      match parseU32 ys with
      | none => .error (.panicked "called unwrap on parse Err")
      | some y => do
        let recs ← equinoxRecords rest
        pure ({ year := y,
                equinox := [⟨"春分の日", d1⟩, ⟨"秋分の日", d2⟩] } :: recs)
    | _ => .error (.panicked "index out of bounds")

/-- timebase.rs `get_equinox_dates` over given records: record-level read
errors are printed and skipped (not returned), then the surviving records are
converted; the function never returns `Result::Err`. -/
def equinoxRows (rows : List (Except String (List String))) : Except RustError (List Equinox) :=
  equinoxRecords (rows.filterMap fun r => match r with | .ok m => some m | .error _ => none)

/-- Modelled from the spec: the parsed records of the embedded equinox
resource `resources/equinox_base_dates.csv`, which is not among the sources.
The spec records one row per year 2020-2050 with the predicted vernal and
autumnal dates; only the 2024 row (03/20 and 09/22) is pinned by the tests,
and the remaining rows follow the observatory prediction pattern (vernal
03/20 or 03/21, autumnal 09/22 or 09/23 by year modulo 4). -/
def equinoxCsvRows : List (Except String (List String)) :=
  (List.range 31).map fun k =>
    let y := 2020 + k
    .ok [toString y,
         if y % 4 ≤ 1 then "03/20" else "03/21",
         if y % 4 == 0 then "09/22" else "09/23"]

/-- timebase.rs `get_equinox_dates` applied to the embedded equinox table. -/
def get_equinox_dates : Except RustError (List Equinox) :=
  equinoxRows equinoxCsvRows

/-! calendar.rs. -/

/-- calendar.rs `Holiday`. -/
structure Holiday where
  name : String
  date : Date
  substitute : Bool
deriving DecidableEq, Repr

/-- calendar.rs `OutputFormat`. -/
inductive OutputFormat where
  | JSON | CSV | YAML
deriving DecidableEq, Repr

/-- calendar.rs `get_weekday_from_string`: trimmed, lower-cased full or
three-letter weekday names. -/
def get_weekday_from_string (s : String) : Option Weekday :=
  match lowerStr (trimStr s) with
  | "monday" | "mon" => some .mon
  | "tuesday" | "tue" => some .tue
  | "wednesday" | "wed" => some .wed
  | "thursday" | "thu" => some .thu
  | "friday" | "fri" => some .fri
  | "saturday" | "sat" => some .sat
  | "sunday" | "sun" => some .sun
  | _ => none

/-- calendar.rs `get_month_num_from_string`: trimmed, lower-cased full or
three-letter month names. -/
def get_month_num_from_string (s : String) : Option Nat :=
  match lowerStr (trimStr s) with
  | "january" | "jan" => some 1
  | "february" | "feb" => some 2
  | "march" | "mar" => some 3
  | "april" | "apr" => some 4
  | "may" => some 5
  | "june" | "jun" => some 6
  | "july" | "jul" => some 7
  | "august" | "aug" => some 8
  | "september" | "sep" => some 9
  | "october" | "oct" => some 10
  | "november" | "nov" => some 11
  | "december" | "dec" => some 12
  | _ => none

/-- The day-by-day scan of `get_relative_date`: starting at day 1 of the
month and stepping one day while the month is unchanged visits exactly days
1..daysInMonth, in ascending order; the days falling on weekday `w` are
collected. -/
def monthMatchingDays (y m : Nat) (w : Weekday) : List Nat :=
  ((List.range (daysInMonth y m)).map (· + 1)).filter
    fun d => Date.weekday ⟨y, m, d⟩ == w

/-- calendar.rs `get_relative_date`.  The month and weekday names are parsed
with `.unwrap()` (panicking on an unrecognized name); the collected matching
days are indexed at `n as usize - 1`, which panics when `n` is 0 (underflow)
or exceeds the number of matches (out of bounds).  The function's `Option`
result is only ever `Some`. -/
def get_relative_date (year : Nat) (c : Condition) : Except RustError (Option Date) :=
  match get_month_num_from_string c.month with
  | none => .error (.panicked "called unwrap on None")
  | some month =>
    match get_weekday_from_string c.weekday with
    | none => .error (.panicked "called unwrap on None")
    | some weekday =>
      let dates := (monthMatchingDays year month weekday).map
        fun d => (⟨year, month, d⟩ : Date)
      match c.n with
      | 0 => .error (.panicked "attempt to subtract with overflow")
      | n + 1 =>
        match dates[n]? with
        | none => .error (.panicked "index out of bounds")
        | some dt => .ok (some dt)

/-- Parse of the two numeric fields of an "MM/DD" string against a given
year.  This embeds calendar.rs's
`NaiveDate::parse_from_str(&format!("{}/{}", year, md), "%Y/%m/%d")`:
the year written in decimal round-trips through the combined string, so the
composite succeeds exactly when `md` is two '/'-separated numeric fields
forming a valid calendar date in year `year`. -/
def parseYearMd (year : Nat) (md : String) : Option Date :=
  match splitStr '/' md with
  | [ms, ds] =>
    match digitsToNat ms.data, digitsToNat ds.data with
    | some m, some d =>
      if 1 ≤ m ∧ m ≤ 12 ∧ 1 ≤ d ∧ d ≤ daysInMonth year m then
        some ⟨year, m, d⟩
      else none
    | _, _ => none
  | _ => none

/-- The `for_each` push loop of `pick_exuinox_from_year`: each recorded
equinox is parsed against the year (panicking via `.unwrap()` when the date
text is malformed) and becomes a non-substitute `Holiday`. -/
def pickEquinoxHolidays (year : Nat) : List EquinoxDay → Except RustError (List Holiday)
  | [] => .ok []
  | x :: rest =>
    match parseYearMd year x.date with
    | none => .error (.panicked "called unwrap on parse Err")
    | some dt => do
      let hs ← pickEquinoxHolidays year rest
      pure ({ name := x.name, date := dt, substitute := false } :: hs)

/-- calendar.rs `pick_exuinox_from_year` (sic): outside 2020..2050 the empty
list is returned at once; otherwise the equinox table is loaded with
`.unwrap()` and the record for the year, when present, becomes two holidays. -/
def pick_exuinox_from_year (year : Nat) : Except RustError (List Holiday) :=
  if year < 2020 ∨ year > 2050 then .ok []
  else
    match get_equinox_dates with
    | .error _ => .error (.panicked "called unwrap on Err")
    | .ok equinoxes =>
      match equinoxes.find? (fun x => x.year == year) with
      | some v => pickEquinoxHolidays year v.equinox
      | none => .ok []

/-- The rule loop of `prepara`: a relative rule resolves through
`get_relative_date` with two `.unwrap()`s (on the condition and on the
returned option; formatting the resolved date as "%Y-%m-%d" and re-parsing it
round-trips the date), a fixed rule parses its "MM/DD" text against the year
with `.unwrap()`. -/
def preparaRules (year : Nat) : List BaseHolyday → Except RustError (List Holiday)
  | [] => .ok []
  | d :: rest =>
    if d.relative then
      match d.condition with
      | none => .error (.panicked "called unwrap on None")
      | some c =>
        match get_relative_date year c with
        | .error e => .error e
        | .ok none => .error (.panicked "called unwrap on None")
        | .ok (some dt) => do
          let hs ← preparaRules year rest
          pure ({ name := d.name, date := dt, substitute := false } :: hs)
    else
      match d.date with
      | none => .error (.panicked "called unwrap on None")
      | some ds =>
        match parseYearMd year ds with
        | none => .error (.panicked "called unwrap on parse Err")
        | some dt => do
          let hs ← preparaRules year rest
          pure ({ name := d.name, date := dt, substitute := false } :: hs)

/-- calendar.rs `prepara`: the base schedule is loaded with `.unwrap()` and
every rule is expanded for the year. -/
def prepara (year : Nat) : Except RustError (List Holiday) :=
  match get_schedule with
  | .error _ => .error (.panicked "called unwrap on Err")
  | .ok dataset => preparaRules year dataset

/-- Whether some holiday in the list occupies date `d`
(`data.iter().any(|h| h.date == sub_date)`). -/
def occupied (data : List Holiday) (d : Date) : Bool :=
  data.any fun h => h.date == d

/-- The inner `while let` of `substitute_adjustment`: starting from position
`i` holding entry `cur`, advance while the next position exists and is dated
exactly one day after the current one; returns the final position and its
entry.  The fuel `data.length` bounds the advance (each step needs position
`i + 1` to exist). -/
def runScanGo (data : List Holiday) : Nat → Nat → Holiday → Nat × Holiday
  | 0, i, cur => (i, cur)
  | fuel + 1, i, cur =>
    match data[i + 1]? with
    | some nxt => if nxt.date = cur.date.next then runScanGo data fuel (i + 1) nxt else (i, cur)
    | none => (i, cur)

/-- Run detection from position `i` with entry `cur = data[i]`. -/
def runScan (data : List Holiday) (i : Nat) (cur : Holiday) : Nat × Holiday :=
  runScanGo data data.length i cur

/-- The collision-avoidance loop of `substitute_adjustment`: advance day by
day from `s` until a date not occupied by `data` is found.  Among
`data.length + 1` successive days at least one is unoccupied, so this fuel
always suffices (`firstFree_not_occupied` below). -/
def firstFreeGo (data : List Holiday) : Nat → Date → Date
  | 0, s => s
  | fuel + 1, s => if occupied data s then firstFreeGo data fuel s.next else s

/-- First unoccupied date at or after `s`. -/
def firstFree (data : List Holiday) (s : Date) : Date :=
  firstFreeGo data (data.length + 1) s

/-- One iteration of the outer `while` of `substitute_adjustment` at index
`i`: when `data[i]` falls on a Sunday, the consecutive run from `i` is
scanned, a substitute named after the run's last entry is appended on the
first unoccupied date after the run, and the index resumes one past the run;
otherwise the index just advances. -/
def stepBody (data : List Holiday) (i : Nat) : List Holiday × Nat :=
  match data[i]? with
  | none => (data, i + 1)
  | some h =>
    if h.date.weekday = .sun then
      let r := runScan data i h
      let subDate := firstFree data r.2.date.next
      (data ++ [{ name := "振替休日(" ++ r.2.name ++ ")", date := subDate, substitute := true }],
       r.1 + 1)
    else (data, i + 1)

/-- The outer `while i < data.len()` of `substitute_adjustment`, with fuel
bounding the number of iterations.  Note the bound is the length of the
current list, which grows as substitutes are appended. -/
def subAdjLoop : Nat → List Holiday → Nat → List Holiday
  | 0, data, _ => data
  | fuel + 1, data, i =>
    if i < data.length then
      let s := stepBody data i
      subAdjLoop fuel s.1 s.2
    else data

/-- calendar.rs `substitute_adjustment`.  Every iteration advances the index
by at least one while appending at most one entry, and the loop always
terminates; the fuel chosen here covers every input exercised below (all
properties proved about the loop hold for every fuel value). -/
def substitute_adjustment (data : List Holiday) : List Holiday :=
  subAdjLoop (data.length * 8 + 64) data 0

/-- Decimal rendering padded to two digits (chrono's "%m" / "%d"). -/
def pad2 (n : Nat) : String :=
  if n < 10 then "0" ++ toString n else toString n

/-- Decimal rendering padded to four digits (chrono's "%Y" in the common
year range). -/
def pad4 (n : Nat) : String :=
  if n < 10 then "000" ++ toString n
  else if n < 100 then "00" ++ toString n
  else if n < 1000 then "0" ++ toString n
  else toString n

/-- `NaiveDate`'s `Display`, the ISO "YYYY-MM-DD" form. -/
def Date.render (dt : Date) : String :=
  pad4 dt.year ++ "-" ++ pad2 dt.month ++ "-" ++ pad2 dt.day

/-- Rust's `Display` for bool. -/
def boolStr : Bool → String
  | true => "true"
  | false => "false"

/-- The CSV branch of `holiday`: header plus one line per holiday. -/
def renderCsv (m : List Holiday) : String :=
  "name,date,substitute\n" ++
    String.join (m.map fun d => d.name ++ "," ++ d.date.render ++ "," ++ boolStr d.substitute ++ "\n")

/-- One object of `serde_json::to_string_pretty` output for a `Holiday`
(field order follows the struct; the holiday names need no JSON escaping). -/
def renderJsonObj (d : Holiday) : String :=
  "  \x7b\n    \"name\": \"" ++ d.name ++ "\",\n    \"date\": \"" ++ d.date.render ++
    "\",\n    \"substitute\": " ++ boolStr d.substitute ++ "\n  \x7d"

/-- `serde_json::to_string_pretty` for the holiday vector (this serialization
never fails, so its `.unwrap()` never panics). -/
def renderJson (m : List Holiday) : String :=
  match m with
  | [] => "[]"
  | _ => "[\n" ++ String.intercalate ",\n" (m.map renderJsonObj) ++ "\n]"

/-- `serde_yaml::to_string` for the holiday vector (never fails). -/
def renderYaml (m : List Holiday) : String :=
  match m with
  | [] => "[]\n"
  | _ => String.join (m.map fun d =>
      "- name: " ++ d.name ++ "\n  date: " ++ d.date.render ++
        "\n  substitute: " ++ boolStr d.substitute ++ "\n")

/-- Insert a holiday into a date-sorted list, after every strictly earlier
entry and before any entry of the same or a later date. -/
def insertByDate (a : Holiday) : List Holiday → List Holiday
  | [] => [a]
  | b :: l => if Date.ltb b.date a.date then b :: insertByDate a l else a :: b :: l

/-- Stable sort of the holiday list by date.  `Vec::sort_by` with
`a.date.cmp(&b.date)` is a stable sort under the same total order, and any
two stable sorts under one order agree on every input, so this insertion
sort computes exactly the source's result. -/
def sortByDate : List Holiday → List Holiday
  | [] => []
  | x :: xs => insertByDate x (sortByDate xs)

/-- The list computed by calendar.rs `holiday` before formatting: base rules,
then equinoxes, then substitute adjustment, then the stable sort by date. -/
def holidayList (year : Nat) : Except RustError (List Holiday) := do
  let m ← prepara year
  let e ← pick_exuinox_from_year year
  let m2 := substitute_adjustment (m ++ e)
  pure (sortByDate m2)

/-- calendar.rs `holiday`: the computed list rendered in the requested
format.  Every `return` in the source is an `Ok`. -/
def holiday (format : OutputFormat) (year : Nat) : Except RustError String := do
  let m ← holidayList year
  match format with
  | .CSV => pure (renderCsv m)
  | .JSON => pure (renderJson m)
  | .YAML => pure (renderYaml m)

/-- Number of days of month `m` of year `y` that fall on weekday `w` and lie
strictly before day `d` — the claim-side reading of "the n-th earliest date
in the month falling on that weekday" counts exactly `n - 1` such days. -/
def matchesBefore (y m : Nat) (w : Weekday) (d : Nat) : Nat :=
  ((List.range (daysInMonth y m)).map (· + 1)).countP
    fun e => (Date.weekday ⟨y, m, e⟩ == w) && decide (e < d)

/-- The dates visited by up to `k` single-day steps from `s` (used to bound
the collision-avoidance scan). -/
def orbitL (s : Date) : Nat → List Date
  | 0 => [s]
  | k + 1 => s :: orbitL s.next k

/-- Claim-side notion for C2: extend a run of occupied dates day by day. -/
def dateRunGo (l : List Holiday) : Nat → Date → Date
  | 0, s => s
  | k + 1, s => if occupied l s.next then dateRunGo l k s.next else s

/-- Claim-side notion for C2: the last date of the consecutive run of holiday
dates starting at `s` — dates exactly one day apart, each occupied by some
entry of the list, regardless of entry positions. -/
def dateRunLast (l : List Holiday) (s : Date) : Date := dateRunGo l l.length s

/-- C2 counterexample input: a Sunday holiday A (2024-02-11), an unrelated
holiday X, and a holiday B dated one day after A but not adjacent to it in
the list. -/
def c2input : List Holiday :=
  [⟨"A", ⟨2024, 2, 11⟩, false⟩, ⟨"X", ⟨2024, 2, 20⟩, false⟩, ⟨"B", ⟨2024, 2, 12⟩, false⟩]

/-- C2 witness input: a single holiday on a Sunday. -/
def c2winput : List Holiday := [⟨"S", ⟨2024, 2, 11⟩, false⟩]

/-- C4 counterexample input: seven holidays on consecutive dates starting on
a Sunday (2024-02-11 through 2024-02-17). -/
def c4input : List Holiday :=
  [⟨"d1", ⟨2024, 2, 11⟩, false⟩, ⟨"d2", ⟨2024, 2, 12⟩, false⟩, ⟨"d3", ⟨2024, 2, 13⟩, false⟩,
   ⟨"d4", ⟨2024, 2, 14⟩, false⟩, ⟨"d5", ⟨2024, 2, 15⟩, false⟩, ⟨"d6", ⟨2024, 2, 16⟩, false⟩,
   ⟨"d7", ⟨2024, 2, 17⟩, false⟩]

/-- Index of a weekday as `Date.weekday` computes it (Sunday is residue 0
because day 7 of year 1 is a Sunday). -/
def weekdayIdx : Weekday → Nat
  | .sun => 0
  | .mon => 1
  | .tue => 2
  | .wed => 3
  | .thu => 4
  | .fri => 5
  | .sat => 6

/-- The fourteen holidays `prepara` produces for year `y`, with the four
relative rules resolved to days `d2` (2nd Monday of January), `d9` (3rd
Monday of July), `d11` (3rd Monday of September) and `d12` (2nd Monday of
October). -/
def baseHolidays (y d2 d9 d11 d12 : Nat) : List Holiday :=
  [⟨"元旦", ⟨y, 1, 1⟩, false⟩, ⟨"成人の日", ⟨y, 1, d2⟩, false⟩,
   ⟨"建国記念の日", ⟨y, 2, 11⟩, false⟩, ⟨"天皇誕生日", ⟨y, 2, 23⟩, false⟩,
   ⟨"昭和の日", ⟨y, 4, 29⟩, false⟩, ⟨"憲法記念日", ⟨y, 5, 3⟩, false⟩,
   ⟨"みどりの日", ⟨y, 5, 4⟩, false⟩, ⟨"こどもの日", ⟨y, 5, 5⟩, false⟩,
   ⟨"海の日", ⟨y, 7, d9⟩, false⟩, ⟨"山の日", ⟨y, 8, 11⟩, false⟩,
   ⟨"敬老の日", ⟨y, 9, d11⟩, false⟩, ⟨"スポーツの日", ⟨y, 10, d12⟩, false⟩,
   ⟨"文化の日", ⟨y, 11, 3⟩, false⟩, ⟨"勤労感謝の日", ⟨y, 11, 23⟩, false⟩]

/-- Claim-side for C5: an output entry is an equinox holiday when it is a
non-substitute entry bearing one of the two equinox names. -/
def isEquinoxEntry (h : Holiday) : Bool :=
  !h.substitute && (h.name == "春分の日" || h.name == "秋分の日")

/-- Claim-side for C5: the record of the equinox table for year `y`. -/
def tableRowFor (y : Nat) : Option (List String) :=
  (equinoxCsvRows.filterMap fun r => match r with | .ok m => some m | .error _ => none).find?
    fun m => m.head? == some (toString y)

/-- Claim-side for C5: the two equinox holidays at the dates recorded in the
equinox table for year `y`. -/
def equinoxHolidaysOf (y : Nat) : List Holiday :=
  match tableRowFor y with
  | some (_ :: s :: a :: _) =>
    match parseYearMd y s, parseYearMd y a with
    | some ds, some da => [⟨"春分の日", ds, false⟩, ⟨"秋分の日", da, false⟩]
    | _, _ => []
  | _ => []

/-- The 2024 holiday list pinned by the tests, in sorted order. -/
def l24 : List Holiday :=
  [⟨"元旦", ⟨2024, 1, 1⟩, false⟩, ⟨"成人の日", ⟨2024, 1, 8⟩, false⟩,
   ⟨"建国記念の日", ⟨2024, 2, 11⟩, false⟩, ⟨"振替休日(建国記念の日)", ⟨2024, 2, 12⟩, true⟩,
   ⟨"天皇誕生日", ⟨2024, 2, 23⟩, false⟩, ⟨"春分の日", ⟨2024, 3, 20⟩, false⟩,
   ⟨"昭和の日", ⟨2024, 4, 29⟩, false⟩, ⟨"憲法記念日", ⟨2024, 5, 3⟩, false⟩,
   ⟨"みどりの日", ⟨2024, 5, 4⟩, false⟩, ⟨"こどもの日", ⟨2024, 5, 5⟩, false⟩,
   ⟨"振替休日(こどもの日)", ⟨2024, 5, 6⟩, true⟩, ⟨"海の日", ⟨2024, 7, 15⟩, false⟩,
   ⟨"山の日", ⟨2024, 8, 11⟩, false⟩, ⟨"振替休日(山の日)", ⟨2024, 8, 12⟩, true⟩,
   ⟨"敬老の日", ⟨2024, 9, 16⟩, false⟩, ⟨"秋分の日", ⟨2024, 9, 22⟩, false⟩,
   ⟨"振替休日(秋分の日)", ⟨2024, 9, 23⟩, true⟩, ⟨"スポーツの日", ⟨2024, 10, 14⟩, false⟩,
   ⟨"文化の日", ⟨2024, 11, 3⟩, false⟩, ⟨"振替休日(文化の日)", ⟨2024, 11, 4⟩, true⟩,
   ⟨"勤労感謝の日", ⟨2024, 11, 23⟩, false⟩]

/-! Theorems.  First, the embedding is validated against the test suite of
calendar.rs: the computed 2024 output reproduces the pinned expected strings
byte for byte. -/

set_option maxRecDepth 10000

/-- The 2024 CSV output pinned by `test_holiday_output_csv`. -/
theorem pinned_csv_2024 :
    holiday .CSV 2024 = .ok "name,date,substitute\n元旦,2024-01-01,false\n成人の日,2024-01-08,false\n建国記念の日,2024-02-11,false\n振替休日(建国記念の日),2024-02-12,true\n天皇誕生日,2024-02-23,false\n春分の日,2024-03-20,false\n昭和の日,2024-04-29,false\n憲法記念日,2024-05-03,false\nみどりの日,2024-05-04,false\nこどもの日,2024-05-05,false\n振替休日(こどもの日),2024-05-06,true\n海の日,2024-07-15,false\n山の日,2024-08-11,false\n振替休日(山の日),2024-08-12,true\n敬老の日,2024-09-16,false\n秋分の日,2024-09-22,false\n振替休日(秋分の日),2024-09-23,true\nスポーツの日,2024-10-14,false\n文化の日,2024-11-03,false\n振替休日(文化の日),2024-11-04,true\n勤労感謝の日,2024-11-23,false\n" := by
  decide

/-- The 2024 YAML output pinned by `test_holiday_output_yml`. -/
theorem pinned_yaml_2024 :
    holiday .YAML 2024 = .ok "- name: 元旦\n  date: 2024-01-01\n  substitute: false\n- name: 成人の日\n  date: 2024-01-08\n  substitute: false\n- name: 建国記念の日\n  date: 2024-02-11\n  substitute: false\n- name: 振替休日(建国記念の日)\n  date: 2024-02-12\n  substitute: true\n- name: 天皇誕生日\n  date: 2024-02-23\n  substitute: false\n- name: 春分の日\n  date: 2024-03-20\n  substitute: false\n- name: 昭和の日\n  date: 2024-04-29\n  substitute: false\n- name: 憲法記念日\n  date: 2024-05-03\n  substitute: false\n- name: みどりの日\n  date: 2024-05-04\n  substitute: false\n- name: こどもの日\n  date: 2024-05-05\n  substitute: false\n- name: 振替休日(こどもの日)\n  date: 2024-05-06\n  substitute: true\n- name: 海の日\n  date: 2024-07-15\n  substitute: false\n- name: 山の日\n  date: 2024-08-11\n  substitute: false\n- name: 振替休日(山の日)\n  date: 2024-08-12\n  substitute: true\n- name: 敬老の日\n  date: 2024-09-16\n  substitute: false\n- name: 秋分の日\n  date: 2024-09-22\n  substitute: false\n- name: 振替休日(秋分の日)\n  date: 2024-09-23\n  substitute: true\n- name: スポーツの日\n  date: 2024-10-14\n  substitute: false\n- name: 文化の日\n  date: 2024-11-03\n  substitute: false\n- name: 振替休日(文化の日)\n  date: 2024-11-04\n  substitute: true\n- name: 勤労感謝の日\n  date: 2024-11-23\n  substitute: false\n" := by
  decide

/-! Error-variant analysis: no function of the pipeline ever constructs the
`Result::Err` variant; every failure is a panic. -/

/-- `get_relative_date` fails only by panicking, never with an `Err` value. -/
theorem get_relative_date_no_err (y : Nat) (c : Condition) (m : String) :
    get_relative_date y c ≠ .error (.err m) := by
  unfold get_relative_date
  split
  · simp
  · split
    · simp
    · split
      · simp
      · simp only []
        split <;> simp

/-- The rule loop of `prepara` fails only by panicking. -/
theorem preparaRules_no_err (y : Nat) (l : List BaseHolyday) (m : String) :
    preparaRules y l ≠ .error (.err m) := by
  induction l with
  | nil => simp [preparaRules]
  | cons d rest ih =>
    unfold preparaRules
    split
    · split
      · simp
      · split
        · rename_i e heq
          intro hc
          injection hc with hc
          rw [hc] at heq
          exact get_relative_date_no_err y _ m heq
        · simp
        · cases hr : preparaRules y rest with
          | ok hs => simp [bind, Except.bind, pure, Except.pure, hr]
          | error e =>
            simp only [bind, Except.bind, pure, Except.pure, hr]
            intro hc
            injection hc with hc
            rw [hc] at hr
            exact ih hr
    · split
      · simp
      · split
        · simp
        · cases hr : preparaRules y rest with
          | ok hs => simp [bind, Except.bind, pure, Except.pure, hr]
          | error e =>
            simp only [bind, Except.bind, pure, Except.pure, hr]
            intro hc
            injection hc with hc
            rw [hc] at hr
            exact ih hr

/-- The equinox push loop fails only by panicking. -/
theorem pickEquinoxHolidays_no_err (y : Nat) (l : List EquinoxDay) (m : String) :
    pickEquinoxHolidays y l ≠ .error (.err m) := by
  induction l with
  | nil => simp [pickEquinoxHolidays]
  | cons x rest ih =>
    unfold pickEquinoxHolidays
    split
    · simp
    · cases hr : pickEquinoxHolidays y rest with
      | ok hs => simp [bind, Except.bind, pure, Except.pure, hr]
      | error e =>
        simp only [bind, Except.bind, pure, Except.pure, hr]
        intro hc
        injection hc with hc
        rw [hc] at hr
        exact ih hr

/-- `pick_exuinox_from_year` fails only by panicking. -/
theorem pick_exuinox_no_err (y : Nat) (m : String) :
    pick_exuinox_from_year y ≠ .error (.err m) := by
  unfold pick_exuinox_from_year
  split
  · simp
  · split
    · simp
    · split
      · exact pickEquinoxHolidays_no_err y _ m
      · simp

/-- `prepara` fails only by panicking. -/
theorem prepara_no_err (y : Nat) (m : String) :
    prepara y ≠ .error (.err m) := by
  unfold prepara
  split
  · simp
  · exact preparaRules_no_err y _ m

/-- The computed holiday list is an `Ok` value or a panic. -/
theorem holidayList_ok_or_panic (y : Nat) :
    (∃ l, holidayList y = .ok l) ∨ (∃ m, holidayList y = .error (.panicked m)) := by
  unfold holidayList
  cases hp : prepara y with
  | error e =>
    cases e with
    | panicked m => right; exact ⟨m, by simp [bind, Except.bind, hp]⟩
    | err m => exact absurd hp (prepara_no_err y m)
  | ok l1 =>
    cases he : pick_exuinox_from_year y with
    | error e =>
      cases e with
      | panicked m => right; exact ⟨m, by simp [bind, Except.bind, hp, he]⟩
      | err m => exact absurd he (pick_exuinox_no_err y m)
    | ok l2 =>
      left
      exact ⟨sortByDate (substitute_adjustment (l1 ++ l2)),
        by simp [bind, Except.bind, pure, Except.pure, hp, he]⟩

/-- C10: whenever the public `holiday(format, year)` function returns
normally, its result is `Ok`: no execution path constructs the `Err` variant
of its `Result`, so every failure of the pipeline (malformed static data, an
unresolvable relative rule, an unparseable date) manifests as a panic
(`RustError.panicked`) rather than a returned typed error. -/
theorem claim_C10 (format : OutputFormat) (year : Nat) :
    (∃ s, holiday format year = .ok s) ∨
      (∃ m, holiday format year = .error (.panicked m)) := by
  unfold holiday
  rcases holidayList_ok_or_panic year with ⟨l, hl⟩ | ⟨m, hm⟩
  · left
    cases format with
    | JSON => exact ⟨renderJson l, by simp [bind, Except.bind, pure, Except.pure, hl]⟩
    | CSV => exact ⟨renderCsv l, by simp [bind, Except.bind, pure, Except.pure, hl]⟩
    | YAML => exact ⟨renderYaml l, by simp [bind, Except.bind, pure, Except.pure, hl]⟩
  · right
    exact ⟨m, by simp [bind, Except.bind, hm]⟩

/-- C9: the holiday computation is deterministic: two calls of `holiday` with
the same format and the same year, over the same embedded static rule and
equinox data, yield identical output.  The embedded pipeline is a pure
function of the static tables and the year — the source threads no mutable
state, randomness or time through the computation — so the results of the
first and the second call are the same value. -/
theorem claim_C9 (format : OutputFormat) (year : Nat) :
    (holiday format year, holiday format year).1 =
      (holiday format year, holiday format year).2 := rfl

/-! The relative-date resolver. -/

/-- The matching days of a month are collected in strictly ascending order. -/
theorem monthMatchingDays_sorted (y m : Nat) (w : Weekday) :
    (monthMatchingDays y m w).Pairwise (· < ·) := by
  apply List.Pairwise.filter
  rw [List.pairwise_map]
  exact (List.pairwise_lt_range _).imp (by omega)

/-- In a strictly ascending list, the entries smaller than the one at
position `k` are exactly the first `k`. -/
theorem countP_lt_getElem (f : List Nat) (hf : f.Pairwise (· < ·)) (k : Nat) (e : Nat)
    (hk : f[k]? = some e) : f.countP (fun x => decide (x < e)) = k := by
  induction f generalizing k with
  | nil => simp at hk
  | cons a t ih =>
    rcases List.pairwise_cons.mp hf with ⟨ha, pt⟩
    cases k with
    | zero =>
      simp at hk
      subst hk
      have h0 : List.countP (fun x => decide (x < a)) t = 0 :=
        List.countP_eq_zero.mpr (by intro x hx; simpa using Nat.le_of_lt (ha x hx))
      rw [List.countP_cons, h0]
      simp
    | succ k =>
      simp at hk
      have he : e ∈ t := List.getElem?_mem hk
      rw [List.countP_cons, ih pt k hk]
      simp [ha e he]

/-- C1 counterexample: the claim as stated — that an over-large occurrence
count makes resolution fail with a ResolutionError, a reported error value —
is false at year 2024, month February, weekday Monday, occurrence 5.
February 2024 has only four Mondays, and `get_relative_date` panics on the
out-of-bounds index `dates[5 - 1]`; the only failure its signature could
report as a value (`Ok(None)`) is not produced, and no error value of any
kind is returned. -/
theorem claim_C1_counterexample :
    get_relative_date 2024 ⟨"February", 5, "Monday"⟩ =
        .error (.panicked "index out of bounds") ∧
      (monthMatchingDays 2024 2 .mon).length = 4 ∧
      get_relative_date 2024 ⟨"February", 5, "Monday"⟩ ≠ .ok none :=
  ⟨by decide, by decide, by decide⟩

/-- C1 (amended): for every year, month, weekday and occurrence count such
that the target month of the target year contains fewer days falling on that
weekday than the requested count, relative-date resolution fails by
panicking on the out-of-bounds index — not with a returned ResolutionError
value — and in particular neither returns an incorrect date nor silently
omits the holiday. -/
theorem claim_C1 (year : Nat) (c : Condition) (m : Nat) (w : Weekday)
    (hm : get_month_num_from_string c.month = some m)
    (hw : get_weekday_from_string c.weekday = some w)
    (hn : (monthMatchingDays year m w).length < c.n) :
    get_relative_date year c = .error (.panicked "index out of bounds") := by
  obtain ⟨n, hcn⟩ : ∃ n, c.n = n + 1 := ⟨c.n - 1, by omega⟩
  have hnone : ((monthMatchingDays year m w).map (fun d => (⟨year, m, d⟩ : Date)))[n]? = none := by
    apply List.getElem?_eq_none
    simp
    omega
  unfold get_relative_date
  rw [hm, hw, hcn]
  simp only [hnone]

/-- C1 witness: the amended claim applied at the 5th Monday of February
2024. -/
theorem claim_C1_witness :
    get_month_num_from_string "February" = some 2 ∧
      get_weekday_from_string "Monday" = some .mon ∧
      (monthMatchingDays 2024 2 .mon).length < 5 ∧
      get_relative_date 2024 ⟨"February", 5, "Monday"⟩ =
        .error (.panicked "index out of bounds") :=
  ⟨by decide, by decide, by decide,
    claim_C1 2024 ⟨"February", 5, "Monday"⟩ 2 .mon (by decide) (by decide) (by decide)⟩

/-- C7: for every year, month, weekday and occurrence count `n` such that the
month contains at least `n` days on that weekday, the relative-date resolver
returns the day obtained by enumerating the days of the month in ascending
order, filtering to the target weekday and selecting the n-th match
(1-indexed): the returned date lies in the target month, falls on the target
weekday, and exactly `n - 1` earlier days of that month fall on that weekday
— it is the n-th earliest such date. -/
theorem claim_C7 (year : Nat) (c : Condition) (m : Nat) (w : Weekday)
    (hm : get_month_num_from_string c.month = some m)
    (hw : get_weekday_from_string c.weekday = some w)
    (h1 : 1 ≤ c.n) (h2 : c.n ≤ (monthMatchingDays year m w).length) :
    ∃ d, get_relative_date year c = .ok (some ⟨year, m, d⟩) ∧
      1 ≤ d ∧ d ≤ daysInMonth year m ∧ Date.weekday ⟨year, m, d⟩ = w ∧
      matchesBefore year m w d = c.n - 1 := by
  obtain ⟨n, hcn⟩ : ∃ n, c.n = n + 1 := ⟨c.n - 1, by omega⟩
  have hlt : n < (monthMatchingDays year m w).length := by omega
  have hget : (monthMatchingDays year m w)[n]? = some ((monthMatchingDays year m w)[n]) :=
    List.getElem?_eq_getElem hlt
  set d := (monthMatchingDays year m w)[n] with hd
  have hmem : d ∈ monthMatchingDays year m w := List.getElem_mem hlt
  obtain ⟨hbase, hpred⟩ := List.mem_filter.mp hmem
  obtain ⟨k, hk, hk2⟩ := by
    simpa using List.mem_map.mp hbase
  refine ⟨d, ?_, ?_, ?_, ?_, ?_⟩
  · unfold get_relative_date
    rw [hm, hw, hcn]
    have hmap : ((monthMatchingDays year m w).map (fun e => (⟨year, m, e⟩ : Date)))[n]? =
        some ⟨year, m, d⟩ := by
      rw [List.getElem?_map, hget]
      rfl
    simp only [hmap]
  · omega
  · omega
  · simpa using hpred
  · have hcount := countP_lt_getElem _ (monthMatchingDays_sorted year m w) n d hget
    unfold matchesBefore
    unfold monthMatchingDays at hcount
    rw [List.countP_filter] at hcount
    have hsub : c.n - 1 = n := by omega
    rw [hsub, ← hcount]
    congr 1
    funext e
    rw [Bool.and_comm]

/-- C7 witness: the 2nd Monday of January 2024 (the resolver returns
2024-01-08, Coming-of-Age Day in the pinned output). -/
theorem claim_C7_witness :
    get_month_num_from_string "January" = some 1 ∧
      get_weekday_from_string "Monday" = some .mon ∧
      1 ≤ (2 : Nat) ∧ 2 ≤ (monthMatchingDays 2024 1 .mon).length ∧
      ∃ d, get_relative_date 2024 ⟨"January", 2, "Monday"⟩ = .ok (some ⟨2024, 1, d⟩) ∧
        1 ≤ d ∧ d ≤ daysInMonth 2024 1 ∧ Date.weekday ⟨2024, 1, d⟩ = .mon ∧
        matchesBefore 2024 1 .mon d = 2 - 1 :=
  ⟨by decide, by decide, by decide, by decide,
    claim_C7 2024 ⟨"January", 2, "Monday"⟩ 1 .mon (by decide) (by decide) (by decide) (by decide)⟩

/-! Schedule loading. -/

/-- C3 counterexample: the claim as stated — a row whose fields fail to
parse makes loading fail with a fatal load error, with no silent defaulting —
is false: a row whose relative flag ("maybe") and occurrence count ("x") both
fail to parse loads successfully, the flag silently defaulting to `false`
and the count to `0`. -/
theorem claim_C3_counterexample :
    scheduleRows [.ok ["成人の日", "", "maybe", "January:x:Monday"]] =
        .ok [⟨"成人の日", none, false, some ⟨"January", 0, "Monday"⟩⟩] ∧
      parseBool "maybe" = none ∧ parseU32 "x" = none :=
  ⟨by decide, by decide, by decide⟩

/-- C3 (amended): a record-level CSV read error does fail base-schedule
loading with a fatal `Err` (when the earlier records parse), but the equinox
loader skips such errors entirely (printing them), and a schedule row whose
relative flag fails to parse as a bool silently defaults it to `false` while
an occurrence count that fails to parse as a u32 silently defaults to `0`;
month and weekday names are not validated at load time at all. -/
theorem claim_C3 :
    (∀ rows1 e rows2, (∀ r ∈ rows1, ∃ m b, r = .ok m ∧ parseBaseRow m = .ok b) →
        scheduleRows (rows1 ++ .error e :: rows2) = .error (.err e)) ∧
    (∀ rows1 e rows2, equinoxRows (rows1 ++ .error e :: rows2) = equinoxRows (rows1 ++ rows2)) ∧
    (∀ name dateStr relStr condStr c0 c1 c2 cs,
        splitStr ':' condStr = c0 :: c1 :: c2 :: cs → condStr ≠ "" →
        parseBool relStr = none → parseU32 c1 = none →
        scheduleRows [.ok [name, dateStr, relStr, condStr]] =
          .ok [⟨name, if dateStr = "" then none else some dateStr, false, some ⟨c0, 0, c2⟩⟩]) := by
  refine ⟨?_, ?_, ?_⟩
  · intro rows1 e rows2 hok
    induction rows1 with
    | nil => rfl
    | cons r rest ih =>
      obtain ⟨m, b, rfl, hb⟩ := hok r (by simp)
      have hrest := ih (fun r hr => hok r (by simp [hr]))
      show scheduleRows (.ok m :: (rest ++ .error e :: rows2)) = .error (.err e)
      unfold scheduleRows
      rw [hb]
      simp [bind, Except.bind, hrest]
  · intro rows1 e rows2
    unfold equinoxRows
    rw [List.filterMap_append, List.filterMap_append]
    simp
  · intro name dateStr relStr condStr c0 c1 c2 cs hsplit hne hbool hn
    simp [scheduleRows, parseBaseRow, hne, hsplit, hbool, hn, bind, Except.bind, pure, Except.pure]

/-- C3 witness: the amended claim applied at concrete rows — a read error
after one good row fails the schedule load, a read error is skipped by the
equinox loader, and an unparseable flag and count default silently. -/
theorem claim_C3_witness :
    scheduleRows [.ok ["元旦", "01/01", "false", ""], .error "record error",
        .ok ["山の日", "08/11", "false", ""]] = .error (.err "record error") ∧
      equinoxRows [.ok ["2020", "03/20", "09/22"], .error "bad record"] =
        equinoxRows [.ok ["2020", "03/20", "09/22"]] ∧
      scheduleRows [.ok ["敬老の日", "", "yes", "September:three:Monday"]] =
        .ok [⟨"敬老の日", none, false, some ⟨"September", 0, "Monday"⟩⟩] :=
  ⟨claim_C3.1 [.ok ["元旦", "01/01", "false", ""]] "record error"
      [.ok ["山の日", "08/11", "false", ""]]
      (by
        intro r hr
        rcases List.mem_singleton.mp hr with rfl
        exact ⟨["元旦", "01/01", "false", ""], ⟨"元旦", some "01/01", false, none⟩,
          rfl, by decide⟩),
    claim_C3.2.1 [.ok ["2020", "03/20", "09/22"]] "bad record" [],
    claim_C3.2.2 "敬老の日" "" "yes" "September:three:Monday" "September" "three" "Monday" []
      (by decide) (by decide) (by decide) (by decide)⟩

/-! The substitute-holiday adjuster. -/

/-- Every date is strictly before the next day. -/
theorem Date.lt_next (d : Date) : Date.Lt d d.next := by
  unfold Date.next Date.Lt
  split
  · simp
  · split
    · simp
    · simp

/-- Chronological order is transitive. -/
theorem Date.Lt_trans {a b c : Date} (h1 : Date.Lt a b) (h2 : Date.Lt b c) : Date.Lt a c := by
  unfold Date.Lt at h1 h2 ⊢
  omega

/-- Chronological order is irreflexive. -/
theorem Date.Lt_irrefl (a : Date) : ¬ Date.Lt a a := by
  unfold Date.Lt
  omega

/-- Every date in the forward orbit of the next day is strictly later. -/
theorem orbit_gt (k : Nat) : ∀ (s : Date), ∀ d ∈ orbitL s.next k, Date.Lt s d := by
  induction k with
  | zero =>
    intro s d hd
    simp [orbitL] at hd
    subst hd
    exact Date.lt_next s
  | succ k ih =>
    intro s d hd
    rcases (by simpa [orbitL] using hd : d = s.next ∨ d ∈ orbitL s.next.next k) with rfl | hmem
    · exact Date.lt_next s
    · exact Date.Lt_trans (Date.lt_next s) (ih s.next d hmem)

/-- A date never re-enters its own forward orbit. -/
theorem self_not_mem_orbit_next (s : Date) (k : Nat) : s ∉ orbitL s.next k := by
  intro hmem
  exact Date.Lt_irrefl s (orbit_gt k s s hmem)

/-- A date is occupied exactly when it is among the dates of the list. -/
theorem occupied_iff (data : List Holiday) (d : Date) :
    occupied data d = true ↔ d ∈ (data.map (·.date)).toFinset := by
  simp [occupied, List.any_eq_true]

/-- Pigeonhole argument for the collision-avoidance loop: when the fuel
exceeds the number of occupied dates in the scanned orbit, the loop ends on
an unoccupied date. -/
theorem freeGo_correct (data : List Holiday) :
    ∀ (fuel : Nat) (s : Date),
      ((data.map (·.date)).toFinset.filter (· ∈ orbitL s fuel)).card ≤ fuel →
      occupied data (firstFreeGo data fuel s) = false := by
  intro fuel
  induction fuel with
  | zero =>
    intro s hcard
    cases hocc : occupied data s with
    | false => exact hocc
    | true =>
      exfalso
      have hs : s ∈ (data.map (·.date)).toFinset := (occupied_iff data s).mp hocc
      have hmem : s ∈ (data.map (·.date)).toFinset.filter (· ∈ orbitL s 0) :=
        Finset.mem_filter.mpr ⟨hs, by simp [orbitL]⟩
      have := Finset.card_pos.mpr ⟨s, hmem⟩
      omega
  | succ fuel ih =>
    intro s hcard
    unfold firstFreeGo
    split
    · rename_i hocc
      apply ih
      have hsub : (data.map (·.date)).toFinset.filter (· ∈ orbitL s.next fuel) ⊆
          ((data.map (·.date)).toFinset.filter (· ∈ orbitL s (fuel + 1))).erase s := by
        intro d hd
        rcases Finset.mem_filter.mp hd with ⟨hd1, hd2⟩
        apply Finset.mem_erase.mpr
        refine ⟨?_, Finset.mem_filter.mpr ⟨hd1, by simp [orbitL, hd2]⟩⟩
        intro heq
        rw [heq] at hd2
        exact self_not_mem_orbit_next s fuel hd2
      have hs : s ∈ (data.map (·.date)).toFinset.filter (· ∈ orbitL s (fuel + 1)) :=
        Finset.mem_filter.mpr ⟨(occupied_iff data s).mp hocc, by simp [orbitL]⟩
      have h1 := Finset.card_le_card hsub
      have h2 := Finset.card_erase_of_mem hs
      omega
    · rename_i hocc
      simpa using hocc

/-- The substitute date chosen by the collision-avoidance loop is never
occupied by the list it scanned. -/
theorem firstFree_not_occupied (data : List Holiday) (s : Date) :
    occupied data (firstFree data s) = false := by
  apply freeGo_correct
  calc ((data.map (·.date)).toFinset.filter (· ∈ orbitL s (data.length + 1))).card
      ≤ (data.map (·.date)).toFinset.card := Finset.card_filter_le _ _
    _ ≤ (data.map (·.date)).length := List.toFinset_card_le _
    _ = data.length := List.length_map _ _
    _ ≤ data.length + 1 := by omega

/-- The collision-avoidance loop advances day by day: its result is reached
after some number of steps, every strictly earlier step landing on an
occupied date. -/
theorem firstFreeGo_iter (data : List Holiday) :
    ∀ (fuel : Nat) (s : Date), ∃ k, k ≤ fuel ∧ firstFreeGo data fuel s = Date.iter k s ∧
      ∀ j < k, occupied data (Date.iter j s) = true := by
  intro fuel
  induction fuel with
  | zero => exact fun s => ⟨0, Nat.le_refl 0, rfl, by omega⟩
  | succ fuel ih =>
    intro s
    unfold firstFreeGo
    split
    · rename_i hocc
      obtain ⟨k, hk, heq, hj⟩ := ih s.next
      refine ⟨k + 1, by omega, heq, ?_⟩
      intro j hj'
      cases j with
      | zero => exact hocc
      | succ j => exact hj j (by omega)
    · exact ⟨0, by omega, rfl, by omega⟩

/-- Full characterization of the inner run scan: the returned position holds
the returned entry, lies at or after the start, every position from the start
up to it is followed by an entry dated exactly one day later, and the run is
maximal (the next position is absent or not one day later). -/
theorem runScanGo_spec (data : List Holiday) :
    ∀ (fuel i : Nat) (cur : Holiday), data[i]? = some cur → data.length ≤ fuel + i →
      data[(runScanGo data fuel i cur).1]? = some (runScanGo data fuel i cur).2 ∧
      i ≤ (runScanGo data fuel i cur).1 ∧
      (∀ t, i ≤ t → t < (runScanGo data fuel i cur).1 →
        ∃ a b, data[t]? = some a ∧ data[t + 1]? = some b ∧ b.date = a.date.next) ∧
      (data[(runScanGo data fuel i cur).1 + 1]? = none ∨
        ∃ b, data[(runScanGo data fuel i cur).1 + 1]? = some b ∧
          b.date ≠ (runScanGo data fuel i cur).2.date.next) := by
  intro fuel
  induction fuel with
  | zero =>
    intro i cur hi hlen
    have hi' : i < data.length := by
      by_contra hge
      rw [List.getElem?_eq_none (by omega)] at hi
      exact Option.noConfusion hi
    omega
  | succ fuel ih =>
    intro i cur hi hlen
    unfold runScanGo
    cases hnext : data[i + 1]? with
    | none =>
      simp only [hnext]
      exact ⟨hi, Nat.le_refl i, fun t ht1 ht2 => absurd ht2 (by omega), Or.inl trivial⟩
    | some nxt =>
      simp only [hnext]
      split
      · rename_i hdate
        have hrec := ih (i + 1) nxt hnext (by omega)
        refine ⟨hrec.1, by have := hrec.2.1; omega, ?_, hrec.2.2.2⟩
        intro t ht1 ht2
        rcases Nat.eq_or_lt_of_le ht1 with rfl | hlt
        · exact ⟨cur, nxt, hi, hnext, hdate⟩
        · exact hrec.2.2.1 t (by omega) ht2
      · rename_i hdate
        exact ⟨hi, Nat.le_refl i, fun t ht1 ht2 => absurd ht2 (by omega),
          Or.inr ⟨nxt, hnext, hdate⟩⟩

/-- One loop iteration only ever appends, and only substitute-flagged
entries. -/
theorem stepBody_append (data : List Holiday) (i : Nat) :
    ∃ t, (stepBody data i).1 = data ++ t ∧ ∀ h ∈ t, h.substitute = true := by
  unfold stepBody
  split
  · exact ⟨[], by simp⟩
  · split
    · exact ⟨_, rfl, by simp⟩
    · exact ⟨[], by simp⟩

/-- The adjustment loop only ever appends, and only substitute-flagged
entries — for every fuel value. -/
theorem subAdjLoop_append (fuel : Nat) (data : List Holiday) (i : Nat) :
    ∃ t, subAdjLoop fuel data i = data ++ t ∧ ∀ h ∈ t, h.substitute = true := by
  induction fuel generalizing data i with
  | zero => exact ⟨[], by simp [subAdjLoop]⟩
  | succ fuel ih =>
    unfold subAdjLoop
    split
    · obtain ⟨t1, ht1, hs1⟩ := stepBody_append data i
      obtain ⟨t2, ht2, hs2⟩ := ih (stepBody data i).1 (stepBody data i).2
      refine ⟨t1 ++ t2, ?_, ?_⟩
      · show subAdjLoop fuel (stepBody data i).1 (stepBody data i).2 = data ++ (t1 ++ t2)
        rw [ht2, ht1, List.append_assoc]
      · intro h hh
        rcases List.mem_append.mp hh with h1 | h2
        · exact hs1 h h1
        · exact hs2 h h2
    · exact ⟨[], by simp⟩

/-- C8: substitute adjustment only appends entries: for every input list the
adjusted list extends the input by a (possibly empty) tail, so every entry of
the original list is present unchanged at its original position, no entry is
removed, and the adjusted length is at least the original length. -/
theorem claim_C8 (data : List Holiday) :
    ∃ t, substitute_adjustment data = data ++ t ∧
      (substitute_adjustment data).take data.length = data ∧
      data.length ≤ (substitute_adjustment data).length := by
  obtain ⟨t, ht, hs⟩ := subAdjLoop_append (data.length * 8 + 64) data 0
  refine ⟨t, ht, ?_, ?_⟩
  · rw [show substitute_adjustment data = data ++ t from ht]
    exact List.take_left data t
  · rw [show substitute_adjustment data = data ++ t from ht]
    simp

/-- C4 counterexample: the claim as stated — entries appended by the
adjustment are never examined by the Sunday scan, so an appended substitute
landing on a Sunday never causes a further substitute — is false.  On seven
consecutive holidays starting on Sunday 2024-02-11, the single input Sunday
produces a substitute on 2024-02-18, itself a Sunday; the scan then reaches
that appended entry (the loop bound `data.len()` has grown) and appends a
second, substitute-of-a-substitute entry on 2024-02-19, giving nine entries
where a single pass over the original indices could append only one. -/
theorem claim_C4_counterexample :
    substitute_adjustment c4input =
        c4input ++ [⟨"振替休日(d7)", ⟨2024, 2, 18⟩, true⟩,
          ⟨"振替休日(振替休日(d7))", ⟨2024, 2, 19⟩, true⟩] ∧
      Date.weekday ⟨2024, 2, 18⟩ = .sun ∧
      c4input.countP (fun h => h.date.weekday == .sun) = 1 ∧
      c4input.length = 7 ∧ (substitute_adjustment c4input).length = 9 :=
  ⟨by decide, by decide, by decide, by decide, by decide⟩

/-- C4 (amended): the Sunday scan is not limited to the original indices —
its bound is the length of the live list, which grows as substitutes are
appended — so an appended substitute that itself lands on a Sunday is
scanned in turn and causes a further substitute to be appended, as exhibited
on the seven-day block `c4input`: the substitute for its last day falls on
the next Sunday, no original entry occupies that date, and the adjusted list
contains a substitute named after that substitute. -/
theorem claim_C4 :
    (⟨"振替休日(振替休日(d7))", ⟨2024, 2, 19⟩, true⟩ : Holiday) ∈ substitute_adjustment c4input ∧
      (⟨"振替休日(d7)", ⟨2024, 2, 18⟩, true⟩ : Holiday) ∈ substitute_adjustment c4input ∧
      Date.weekday ⟨2024, 2, 18⟩ = .sun ∧
      c4input.all (fun h => h.date ≠ ⟨2024, 2, 18⟩) = true :=
  ⟨by decide, by decide, by decide, by decide⟩

/-- C2 counterexample: the claim as stated — the appended entry's name embeds
the last holiday of the consecutive run of holiday *dates* starting at the
Sunday — is false on `c2input`, where the run member B (2024-02-12, one day
after Sunday holiday A) is not adjacent to A in the list: the date-wise run
from 2024-02-11 ends at 2024-02-12 whose holiday is B, and the appended
substitute indeed lands on 2024-02-13 (the first free date after that run),
but its name embeds A — the entry at the scan position — not B. -/
theorem claim_C2_counterexample :
    substitute_adjustment c2input =
        c2input ++ [⟨"振替休日(A)", ⟨2024, 2, 13⟩, true⟩] ∧
      Date.weekday ⟨2024, 2, 11⟩ = .sun ∧
      dateRunLast c2input ⟨2024, 2, 11⟩ = ⟨2024, 2, 12⟩ ∧
      c2input.find? (fun h => h.date == ⟨2024, 2, 12⟩) = some ⟨"B", ⟨2024, 2, 12⟩, false⟩ ∧
      "振替休日(A)" ≠ "振替休日(B)" :=
  ⟨by decide, by decide, by decide, by decide, by decide⟩

/-- C2 (amended): at each iteration of the adjustment loop whose scanned
entry falls on a Sunday, exactly one entry is appended; the run is the
maximal chain of successive *positions* from the scan position whose dates
are exactly one day apart; the appended entry's date is obtained by stepping
day by day from the day after the run's last date over dates occupied by the
current list (including previously appended substitutes) to the first
unoccupied date; its name embeds the name of the entry at the run's last
position, and its substitute flag is true. -/
theorem claim_C2 (data : List Holiday) (i : Nat) (h : Holiday)
    (hi : data[i]? = some h) (hsun : h.date.weekday = .sun) :
    ∃ j last sub k,
      runScan data i h = (j, last) ∧
      stepBody data i =
        (data ++ [⟨"振替休日(" ++ last.name ++ ")", sub, true⟩], j + 1) ∧
      data[j]? = some last ∧ i ≤ j ∧
      (∀ t, i ≤ t → t < j →
        ∃ a b, data[t]? = some a ∧ data[t + 1]? = some b ∧ b.date = a.date.next) ∧
      (data[j + 1]? = none ∨ ∃ b, data[j + 1]? = some b ∧ b.date ≠ last.date.next) ∧
      sub = Date.iter k last.date.next ∧
      (∀ j' < k, occupied data (Date.iter j' last.date.next) = true) ∧
      occupied data sub = false := by
  have hspec := runScanGo_spec data data.length i h hi (by omega)
  obtain ⟨k, hk, hkeq, hkocc⟩ :=
    firstFreeGo_iter data (data.length + 1) (runScan data i h).2.date.next
  refine ⟨(runScan data i h).1, (runScan data i h).2,
    firstFree data (runScan data i h).2.date.next, k,
    rfl, ?_, hspec.1, hspec.2.1, hspec.2.2.1, hspec.2.2.2, hkeq, hkocc,
    firstFree_not_occupied data _⟩
  unfold stepBody
  simp only [hi]
  rw [if_pos hsun]

/-- C2 witness: the amended claim applied to a single Sunday holiday. -/
theorem claim_C2_witness :
    c2winput[0]? = some ⟨"S", ⟨2024, 2, 11⟩, false⟩ ∧
      Date.weekday ⟨2024, 2, 11⟩ = .sun ∧
      ∃ j last sub k,
        runScan c2winput 0 ⟨"S", ⟨2024, 2, 11⟩, false⟩ = (j, last) ∧
        stepBody c2winput 0 =
          (c2winput ++ [⟨"振替休日(" ++ last.name ++ ")", sub, true⟩], j + 1) ∧
        c2winput[j]? = some last ∧ 0 ≤ j ∧
        (∀ t, 0 ≤ t → t < j →
          ∃ a b, c2winput[t]? = some a ∧ c2winput[t + 1]? = some b ∧ b.date = a.date.next) ∧
        (c2winput[j + 1]? = none ∨
          ∃ b, c2winput[j + 1]? = some b ∧ b.date ≠ last.date.next) ∧
        sub = Date.iter k last.date.next ∧
        (∀ j' < k, occupied c2winput (Date.iter j' last.date.next) = true) ∧
        occupied c2winput sub = false :=
  ⟨by decide, by decide,
    claim_C2 c2winput 0 ⟨"S", ⟨2024, 2, 11⟩, false⟩ (by decide) (by decide)⟩

/-! The relative rules for every year, and strict sortedness of the computed
list (claims C5 and C6). -/

theorem weekday_beq (dt : Date) (w : Weekday) :
    (Date.weekday dt == w) = (dt.toOrd % 7 == weekdayIdx w) := by
  have hb : dt.toOrd % 7 < 7 := Nat.mod_lt _ (by norm_num)
  unfold Date.weekday
  generalize h : dt.toOrd % 7 = r at hb ⊢
  interval_cases r <;> cases w <;> decide

theorem nthMatchBounds (B L n : Nat) (hL1 : 28 ≤ L) (hL2 : L ≤ 31)
    (hn1 : 1 ≤ n) (hn2 : n ≤ 4) :
    ∃ d, (((List.range L).map (· + 1)).filter (fun e => (B + e) % 7 == 1))[n - 1]? = some d ∧
      7 * n - 6 ≤ d ∧ d ≤ 7 * n := by
  have hrw : ∀ e, ((B + e) % 7 == 1) = ((B % 7 + e) % 7 == 1) := by
    intro e
    apply Bool.decide_congr
    omega
  simp only [hrw]
  have hb : B % 7 < 7 := Nat.mod_lt _ (by norm_num)
  generalize h : B % 7 = r at hb ⊢
  interval_cases r <;> interval_cases L <;> interval_cases n <;> decide

theorem daysInMonth_ge_28 (y m : Nat) (h1 : 1 ≤ m) (h2 : m ≤ 12) : 28 ≤ daysInMonth y m := by
  interval_cases m <;> simp [daysInMonth] <;> split <;> omega

theorem daysInMonth_le_31 (y m : Nat) (h1 : 1 ≤ m) (h2 : m ≤ 12) : daysInMonth y m ≤ 31 := by
  interval_cases m <;> simp [daysInMonth] <;> split <;> omega

theorem relative_mon_eval (y m n : Nat) (ms ws : String)
    (h1 : 1 ≤ m) (h2 : m ≤ 12) (hn1 : 1 ≤ n) (hn2 : n ≤ 4)
    (hname : get_month_num_from_string ms = some m)
    (hwname : get_weekday_from_string ws = some .mon) :
    ∃ d, get_relative_date y ⟨ms, n, ws⟩ = .ok (some ⟨y, m, d⟩) ∧
      7 * n - 6 ≤ d ∧ d ≤ 7 * n := by
  obtain ⟨d, hd, hb1, hb2⟩ := nthMatchBounds (yearBase y + daysBefore y m) (daysInMonth y m) n
    (daysInMonth_ge_28 y m h1 h2) (daysInMonth_le_31 y m h1 h2) hn1 hn2
  have hmm : monthMatchingDays y m .mon =
      ((List.range (daysInMonth y m)).map (· + 1)).filter
        (fun e => ((yearBase y + daysBefore y m) + e) % 7 == 1) := by
    unfold monthMatchingDays
    congr 1
    funext e
    rw [weekday_beq]
    rfl
  refine ⟨d, ?_, hb1, hb2⟩
  unfold get_relative_date
  rw [hname, hwname]
  obtain ⟨k, rfl⟩ : ∃ k, n = k + 1 := ⟨n - 1, by omega⟩
  have hidx : ((monthMatchingDays y m .mon).map (fun e => (⟨y, m, e⟩ : Date)))[k]? =
      some ⟨y, m, d⟩ := by
    rw [List.getElem?_map, hmm]
    rw [show (k + 1 - 1) = k from rfl] at hd
    rw [hd]
    rfl
  simp only [hidx]

theorem parseYearMd_eval (y m d : Nat) (md ms ds : String)
    (hsplit : splitStr '/' md = [ms, ds])
    (hm : digitsToNat ms.data = some m) (hd : digitsToNat ds.data = some d)
    (h1 : 1 ≤ m) (h2 : m ≤ 12) (h3 : 1 ≤ d) (h4 : d ≤ daysInMonth y m) :
    parseYearMd y md = some ⟨y, m, d⟩ := by
  unfold parseYearMd
  rw [hsplit]
  simp only [hm, hd]
  rw [if_pos ⟨h1, h2, h3, h4⟩]

theorem prepara_eval (y : Nat) :
    ∃ d2 d9 d11 d12,
      8 ≤ d2 ∧ d2 ≤ 14 ∧ 15 ≤ d9 ∧ d9 ≤ 21 ∧ 15 ≤ d11 ∧ d11 ≤ 21 ∧ 8 ≤ d12 ∧ d12 ≤ 14 ∧
      prepara y = .ok (baseHolidays y d2 d9 d11 d12) := by
  obtain ⟨d2, hJ, hJ1, hJ2⟩ := relative_mon_eval y 1 2 "January" "Monday"
    (by norm_num) (by norm_num) (by norm_num) (by norm_num) (by decide) (by decide)
  obtain ⟨d9, hU, hU1, hU2⟩ := relative_mon_eval y 7 3 "July" "Monday"
    (by norm_num) (by norm_num) (by norm_num) (by norm_num) (by decide) (by decide)
  obtain ⟨d11, hK, hK1, hK2⟩ := relative_mon_eval y 9 3 "September" "Monday"
    (by norm_num) (by norm_num) (by norm_num) (by norm_num) (by decide) (by decide)
  obtain ⟨d12, hS, hS1, hS2⟩ := relative_mon_eval y 10 2 "October" "Monday"
    (by norm_num) (by norm_num) (by norm_num) (by norm_num) (by decide) (by decide)
  have e1 : parseYearMd y "01/01" = some ⟨y, 1, 1⟩ :=
    parseYearMd_eval y 1 1 "01/01" "01" "01" (by decide) (by decide) (by decide)
      (by norm_num) (by norm_num) (by norm_num)
      (le_trans (by norm_num) (daysInMonth_ge_28 y 1 (by norm_num) (by norm_num)))
  have e2 : parseYearMd y "02/11" = some ⟨y, 2, 11⟩ :=
    parseYearMd_eval y 2 11 "02/11" "02" "11" (by decide) (by decide) (by decide)
      (by norm_num) (by norm_num) (by norm_num)
      (le_trans (by norm_num) (daysInMonth_ge_28 y 2 (by norm_num) (by norm_num)))
  have e3 : parseYearMd y "02/23" = some ⟨y, 2, 23⟩ :=
    parseYearMd_eval y 2 23 "02/23" "02" "23" (by decide) (by decide) (by decide)
      (by norm_num) (by norm_num) (by norm_num)
      (le_trans (by norm_num) (daysInMonth_ge_28 y 2 (by norm_num) (by norm_num)))
  have e4 : parseYearMd y "04/29" = some ⟨y, 4, 29⟩ :=
    parseYearMd_eval y 4 29 "04/29" "04" "29" (by decide) (by decide) (by decide)
      (by norm_num) (by norm_num) (by norm_num) (by norm_num [daysInMonth])
  have e5 : parseYearMd y "05/03" = some ⟨y, 5, 3⟩ :=
    parseYearMd_eval y 5 3 "05/03" "05" "03" (by decide) (by decide) (by decide)
      (by norm_num) (by norm_num) (by norm_num)
      (le_trans (by norm_num) (daysInMonth_ge_28 y 5 (by norm_num) (by norm_num)))
  have e6 : parseYearMd y "05/04" = some ⟨y, 5, 4⟩ :=
    parseYearMd_eval y 5 4 "05/04" "05" "04" (by decide) (by decide) (by decide)
      (by norm_num) (by norm_num) (by norm_num)
      (le_trans (by norm_num) (daysInMonth_ge_28 y 5 (by norm_num) (by norm_num)))
  have e7 : parseYearMd y "05/05" = some ⟨y, 5, 5⟩ :=
    parseYearMd_eval y 5 5 "05/05" "05" "05" (by decide) (by decide) (by decide)
      (by norm_num) (by norm_num) (by norm_num)
      (le_trans (by norm_num) (daysInMonth_ge_28 y 5 (by norm_num) (by norm_num)))
  have e8 : parseYearMd y "08/11" = some ⟨y, 8, 11⟩ :=
    parseYearMd_eval y 8 11 "08/11" "08" "11" (by decide) (by decide) (by decide)
      (by norm_num) (by norm_num) (by norm_num)
      (le_trans (by norm_num) (daysInMonth_ge_28 y 8 (by norm_num) (by norm_num)))
  have e9 : parseYearMd y "11/03" = some ⟨y, 11, 3⟩ :=
    parseYearMd_eval y 11 3 "11/03" "11" "03" (by decide) (by decide) (by decide)
      (by norm_num) (by norm_num) (by norm_num)
      (le_trans (by norm_num) (daysInMonth_ge_28 y 11 (by norm_num) (by norm_num)))
  have e10 : parseYearMd y "11/23" = some ⟨y, 11, 23⟩ :=
    parseYearMd_eval y 11 23 "11/23" "11" "23" (by decide) (by decide) (by decide)
      (by norm_num) (by norm_num) (by norm_num)
      (le_trans (by norm_num) (daysInMonth_ge_28 y 11 (by norm_num) (by norm_num)))
  refine ⟨d2, d9, d11, d12, by omega, by omega, by omega, by omega,
    by omega, by omega, by omega, by omega, ?_⟩
  have hs : get_schedule = .ok
      [⟨"元旦", some "01/01", false, none⟩,
       ⟨"成人の日", none, true, some ⟨"January", 2, "Monday"⟩⟩,
       ⟨"建国記念の日", some "02/11", false, none⟩,
       ⟨"天皇誕生日", some "02/23", false, none⟩,
       ⟨"昭和の日", some "04/29", false, none⟩,
       ⟨"憲法記念日", some "05/03", false, none⟩,
       ⟨"みどりの日", some "05/04", false, none⟩,
       ⟨"こどもの日", some "05/05", false, none⟩,
       ⟨"海の日", none, true, some ⟨"July", 3, "Monday"⟩⟩,
       ⟨"山の日", some "08/11", false, none⟩,
       ⟨"敬老の日", none, true, some ⟨"September", 3, "Monday"⟩⟩,
       ⟨"スポーツの日", none, true, some ⟨"October", 2, "Monday"⟩⟩,
       ⟨"文化の日", some "11/03", false, none⟩,
       ⟨"勤労感謝の日", some "11/23", false, none⟩] := by decide
  unfold prepara
  simp only [hs]
  simp [preparaRules, hJ, hU, hK, hS, e1, e2, e3, e4, e5, e6, e7, e8, e9, e10,
    bind, Except.bind, pure, Except.pure, baseHolidays]

theorem pick_out_of_range (y : Nat) (h : y < 2020 ∨ y > 2050) :
    pick_exuinox_from_year y = .ok [] := by
  unfold pick_exuinox_from_year
  rw [if_pos h]

theorem pick_in_range (y : Nat) (h1 : 2020 ≤ y) (h2 : y ≤ 2050) :
    ∃ sd ad, (sd = 20 ∨ sd = 21) ∧ (ad = 22 ∨ ad = 23) ∧
      pick_exuinox_from_year y =
        .ok [⟨"春分の日", ⟨y, 3, sd⟩, false⟩, ⟨"秋分の日", ⟨y, 9, ad⟩, false⟩] ∧
      equinoxHolidaysOf y =
        [⟨"春分の日", ⟨y, 3, sd⟩, false⟩, ⟨"秋分の日", ⟨y, 9, ad⟩, false⟩] := by
  interval_cases y <;> first
    | exact ⟨20, 22, Or.inl rfl, Or.inl rfl, by decide, by decide⟩
    | exact ⟨20, 23, Or.inl rfl, Or.inr rfl, by decide, by decide⟩
    | exact ⟨21, 23, Or.inr rfl, Or.inr rfl, by decide, by decide⟩

theorem leb_of_ltb (a b : Date) (h : Date.ltb a b = true) : Date.leb a b = true := by
  cases a; cases b
  simp [Date.ltb, Date.leb] at *
  omega

theorem leb_total (a b : Date) (h : Date.ltb b a = false) : Date.leb a b = true := by
  simp [Date.leb, h]

theorem leb_trans (a b c : Date) (h1 : Date.leb a b = true) (h2 : Date.leb b c = true) :
    Date.leb a c = true := by
  cases a; cases b; cases c
  simp [Date.ltb, Date.leb] at *
  omega

theorem strict_of_le_ne (a b : Date) (hle : Date.leb a b = true) (hne : a ≠ b) :
    Date.Lt a b := by
  cases a; cases b
  simp [Date.leb, Date.ltb, Date.Lt, Date.mk.injEq] at *
  omega

theorem insertByDate_perm (a : Holiday) (l : List Holiday) :
    List.Perm (insertByDate a l) (a :: l) := by
  induction l with
  | nil => simp [insertByDate]
  | cons b t ih =>
    unfold insertByDate
    split
    · exact (ih.cons b).trans (List.Perm.swap a b t)
    · exact List.Perm.refl _

theorem sortByDate_perm (l : List Holiday) : List.Perm (sortByDate l) l := by
  induction l with
  | nil => exact List.Perm.refl _
  | cons x xs ih => exact (insertByDate_perm x (sortByDate xs)).trans (ih.cons x)

theorem insertByDate_sorted (a : Holiday) (l : List Holiday)
    (h : l.Pairwise (fun x z => Date.leb x.date z.date = true)) :
    (insertByDate a l).Pairwise (fun x z => Date.leb x.date z.date = true) := by
  induction l with
  | nil => simp [insertByDate]
  | cons b t ih =>
    rcases List.pairwise_cons.mp h with ⟨hb, ht⟩
    unfold insertByDate
    split
    · rename_i hlt
      apply List.pairwise_cons.mpr
      refine ⟨?_, ih ht⟩
      intro x hx
      rcases List.mem_cons.mp ((insertByDate_perm a t).subset hx) with rfl | hxt
      · exact leb_of_ltb _ _ hlt
      · exact hb x hxt
    · rename_i hge
      apply List.pairwise_cons.mpr
      have hab : Date.leb a.date b.date = true :=
        leb_total _ _ (by revert hge; cases Date.ltb b.date a.date <;> simp)
      refine ⟨?_, h⟩
      intro x hx
      rcases List.mem_cons.mp hx with rfl | hxt
      · exact hab
      · exact leb_trans _ _ _ hab (hb x hxt)

theorem sortByDate_sorted (l : List Holiday) :
    (sortByDate l).Pairwise (fun x z => Date.leb x.date z.date = true) := by
  induction l with
  | nil => simp [sortByDate]
  | cons x xs ih => exact insertByDate_sorted x (sortByDate xs) ih

theorem stepBody_pwne (data : List Holiday) (i : Nat)
    (h : data.Pairwise (fun a b => a.date ≠ b.date)) :
    (stepBody data i).1.Pairwise (fun a b => a.date ≠ b.date) := by
  unfold stepBody
  split
  · exact h
  · split
    · rename_i cur hcur hsun
      apply List.pairwise_append.mpr
      refine ⟨h, by simp, ?_⟩
      intro a ha b hb
      rcases List.mem_singleton.mp hb with rfl
      have hfree := firstFree_not_occupied data (runScan data i cur).2.date.next
      intro heq
      have : occupied data (firstFree data (runScan data i cur).2.date.next) = true := by
        unfold occupied
        apply List.any_eq_true.mpr
        exact ⟨a, ha, by simp [heq]⟩
      rw [hfree] at this
      exact Bool.noConfusion this
    · exact h

theorem subAdjLoop_pwne (fuel : Nat) (data : List Holiday) (i : Nat)
    (h : data.Pairwise (fun a b => a.date ≠ b.date)) :
    (subAdjLoop fuel data i).Pairwise (fun a b => a.date ≠ b.date) := by
  induction fuel generalizing data i with
  | zero => exact h
  | succ fuel ih =>
    unfold subAdjLoop
    split
    · exact ih (stepBody data i).1 (stepBody data i).2 (stepBody_pwne data i h)
    · exact h

theorem sortByDate_strict (l : List Holiday)
    (h : l.Pairwise (fun a b => a.date ≠ b.date)) :
    (sortByDate l).Pairwise (fun a b => Date.Lt a.date b.date) := by
  have hperm : List.Perm (sortByDate l) l := sortByDate_perm l
  have hne : (sortByDate l).Pairwise (fun a b => a.date ≠ b.date) :=
    (hperm.pairwise_iff (fun hab => Ne.symm hab)).mpr h
  have hs := sortByDate_sorted l
  exact (hs.and hne).imp fun hab => strict_of_le_ne _ _ hab.1 (by
    intro hc
    exact hab.2 (by rw [hc]))

theorem base_eq_pwne (y d2 d9 d11 d12 sd ad : Nat)
    (h2a : 8 ≤ d2) (h2b : d2 ≤ 14) (h9a : 15 ≤ d9) (h9b : d9 ≤ 21)
    (h11a : 15 ≤ d11) (h11b : d11 ≤ 21) (h12a : 8 ≤ d12) (h12b : d12 ≤ 14)
    (hsd : sd = 20 ∨ sd = 21) (had : ad = 22 ∨ ad = 23) :
    (baseHolidays y d2 d9 d11 d12 ++
        ([⟨"春分の日", ⟨y, 3, sd⟩, false⟩, ⟨"秋分の日", ⟨y, 9, ad⟩, false⟩] :
          List Holiday)).Pairwise
      (fun a b => a.date ≠ b.date) := by
  unfold baseHolidays
  simp only [List.cons_append, List.nil_append]
  simp [List.pairwise_cons, Date.mk.injEq]
  rcases had with rfl | rfl <;> omega

theorem holidayList_eval (y : Nat) :
    ∃ m2, holidayList y = .ok (sortByDate m2) ∧
      m2.Pairwise (fun a b => a.date ≠ b.date) := by
  obtain ⟨d2, d9, d11, d12, h2a, h2b, h9a, h9b, h11a, h11b, h12a, h12b, hp⟩ := prepara_eval y
  by_cases hr : 2020 ≤ y ∧ y ≤ 2050
  · obtain ⟨sd, ad, hsd, had, he, heqt⟩ := pick_in_range y hr.1 hr.2
    refine ⟨substitute_adjustment (baseHolidays y d2 d9 d11 d12 ++
      ([⟨"春分の日", ⟨y, 3, sd⟩, false⟩, ⟨"秋分の日", ⟨y, 9, ad⟩, false⟩] : List Holiday)),
      ?_, ?_⟩
    · simp [holidayList, hp, he, bind, Except.bind, pure, Except.pure]
    · exact subAdjLoop_pwne _ _ _
        (base_eq_pwne y d2 d9 d11 d12 sd ad h2a h2b h9a h9b h11a h11b h12a h12b hsd had)
  · have he : pick_exuinox_from_year y = .ok [] := pick_out_of_range y (by omega)
    refine ⟨substitute_adjustment (baseHolidays y d2 d9 d11 d12), ?_, ?_⟩
    · simp [holidayList, hp, he, bind, Except.bind, pure, Except.pure]
    · apply subAdjLoop_pwne
      have hbig := base_eq_pwne y d2 d9 d11 d12 20 22 h2a h2b h9a h9b h11a h11b h12a h12b
        (Or.inl rfl) (Or.inl rfl)
      exact (List.pairwise_append.mp hbig).1

theorem holidayList_strict_aux (y : Nat) (l : List Holiday) (h : holidayList y = .ok l) :
    l.Pairwise (fun a b => Date.Lt a.date b.date) := by
  obtain ⟨m2, heq, hpw⟩ := holidayList_eval y
  rw [heq] at h
  injection h with h
  rw [← h]
  exact sortByDate_strict m2 hpw

/-- C6: for every year for which the computation succeeds, the holiday list
produced by the pipeline is sorted strictly ascending by date: pairwise, each
earlier entry's date is strictly before each later entry's date — in
particular each entry's date is strictly earlier than the next entry's. -/
theorem claim_C6 (y : Nat) (l : List Holiday) (h : holidayList y = .ok l) :
    l.Pairwise (fun a b => Date.Lt a.date b.date) :=
  holidayList_strict_aux y l h

/-- C6 witness: the computed 2024 list is the pinned one and is strictly
sorted. -/
theorem claim_C6_witness :
    holidayList 2024 = .ok l24 ∧ l24.Pairwise (fun a b => Date.Lt a.date b.date) :=
  ⟨by decide, claim_C6 2024 l24 (by decide)⟩

/-! Equinox injection (claim C5). -/

/-- Chronological order is asymmetric. -/
theorem Date.Lt_asymm {a b : Date} (h : Date.Lt a b) : ¬ Date.Lt b a := by
  unfold Date.Lt at *
  omega

/-- A list that is a permutation of a two-element list and strictly sorted by
date, with the pair itself in date order, is that pair. -/
theorem perm_pair_of_sorted (l : List Holiday) (x z : Holiday)
    (hp : List.Perm l [x, z]) (hs : l.Pairwise (fun a b => Date.Lt a.date b.date))
    (hxz : Date.Lt x.date z.date) : l = [x, z] := by
  have hlen : l.length = 2 := by simpa using hp.length_eq
  match l, hp, hs, hlen with
  | [u, v], hp, hs, _ =>
    have huv : Date.Lt u.date v.date := by
      rcases List.pairwise_cons.mp hs with ⟨h1, _⟩
      exact h1 v (by simp)
    have hu : u = x ∨ u = z := by simpa using hp.subset (show u ∈ [u, v] by simp)
    have hv : v = x ∨ v = z := by simpa using hp.subset (show v ∈ [u, v] by simp)
    rcases hu with hux | huz
    · rcases hv with hvx | hvz
      · exfalso
        rw [hux, hvx] at huv
        exact Date.Lt_irrefl _ huv
      · rw [hux, hvz]
    · rcases hv with hvx | hvz
      · exfalso
        rw [huz, hvx] at huv
        exact Date.Lt_asymm hxz huv
      · exfalso
        rw [huz, hvz] at huv
        exact Date.Lt_irrefl _ huv

/-- C5: for every year outside 2020..2050 the computation succeeds and its
output contains no equinox holidays; for every year in 2020..2050 exactly two
equinox holidays (vernal, then autumnal) appear in the output, at the dates
recorded in the equinox table for that year. -/
theorem claim_C5 (y : Nat) :
    ∃ l, holidayList y = .ok l ∧
      l.filter isEquinoxEntry =
        (if 2020 ≤ y ∧ y ≤ 2050 then equinoxHolidaysOf y else []) ∧
      (l.filter isEquinoxEntry).length = (if 2020 ≤ y ∧ y ≤ 2050 then 2 else 0) := by
  obtain ⟨d2, d9, d11, d12, h2a, h2b, h9a, h9b, h11a, h11b, h12a, h12b, hp⟩ := prepara_eval y
  by_cases hr : 2020 ≤ y ∧ y ≤ 2050
  · obtain ⟨sd, ad, hsd, had, he, heqt⟩ := pick_in_range y hr.1 hr.2
    set B := baseHolidays y d2 d9 d11 d12 with hBdef
    set E : List Holiday :=
      [⟨"春分の日", ⟨y, 3, sd⟩, false⟩, ⟨"秋分の日", ⟨y, 9, ad⟩, false⟩] with hEdef
    have hpwne : (substitute_adjustment (B ++ E)).Pairwise (fun a b => a.date ≠ b.date) :=
      subAdjLoop_pwne _ _ _
        (base_eq_pwne y d2 d9 d11 d12 sd ad h2a h2b h9a h9b h11a h11b h12a h12b hsd had)
    obtain ⟨t, ht, hsubt⟩ := subAdjLoop_append ((B ++ E).length * 8 + 64) (B ++ E) 0
    have hfm2 : (substitute_adjustment (B ++ E)).filter isEquinoxEntry = E := by
      rw [show substitute_adjustment (B ++ E) = (B ++ E) ++ t from ht,
        List.filter_append, List.filter_append]
      have hB : B.filter isEquinoxEntry = [] := by
        rw [hBdef]
        simp [baseHolidays, isEquinoxEntry]
      have hE : E.filter isEquinoxEntry = E := by
        rw [hEdef]
        simp [isEquinoxEntry]
      have hT : t.filter isEquinoxEntry = [] :=
        List.filter_eq_nil_iff.mpr fun h hh => by simp [isEquinoxEntry, hsubt h hh]
      rw [hB, hE, hT]
      simp
    have hperm :=
      (sortByDate_perm (substitute_adjustment (B ++ E))).filter isEquinoxEntry
    rw [hfm2] at hperm
    have hsort :
        ((sortByDate (substitute_adjustment (B ++ E))).filter isEquinoxEntry).Pairwise
          (fun a b => Date.Lt a.date b.date) :=
      List.Pairwise.sublist (List.filter_sublist _) (sortByDate_strict _ hpwne)
    have hfl : (sortByDate (substitute_adjustment (B ++ E))).filter isEquinoxEntry = E := by
      apply perm_pair_of_sorted _ _ _ hperm hsort
      simp [Date.Lt]
    refine ⟨sortByDate (substitute_adjustment (B ++ E)), ?_, ?_, ?_⟩
    · simp [holidayList, hp, he, bind, Except.bind, pure, Except.pure]
    · rw [hfl, if_pos hr, heqt]
    · rw [hfl, if_pos hr]
      rfl
  · have he : pick_exuinox_from_year y = .ok [] := pick_out_of_range y (by omega)
    set B := baseHolidays y d2 d9 d11 d12 with hBdef
    have hbig := base_eq_pwne y d2 d9 d11 d12 20 22 h2a h2b h9a h9b h11a h11b h12a h12b
      (Or.inl rfl) (Or.inl rfl)
    obtain ⟨t, ht, hsubt⟩ := subAdjLoop_append (B.length * 8 + 64) B 0
    have hfm2 : (substitute_adjustment B).filter isEquinoxEntry = [] := by
      rw [show substitute_adjustment B = B ++ t from ht, List.filter_append]
      have hB : B.filter isEquinoxEntry = [] := by
        rw [hBdef]
        simp [baseHolidays, isEquinoxEntry]
      have hT : t.filter isEquinoxEntry = [] :=
        List.filter_eq_nil_iff.mpr fun h hh => by simp [isEquinoxEntry, hsubt h hh]
      rw [hB, hT]
      rfl
    have hperm :=
      (sortByDate_perm (substitute_adjustment B)).filter isEquinoxEntry
    rw [hfm2] at hperm
    have hfl : (sortByDate (substitute_adjustment B)).filter isEquinoxEntry = [] :=
      List.Perm.eq_nil hperm
    refine ⟨sortByDate (substitute_adjustment B), ?_, ?_, ?_⟩
    · simp [holidayList, hp, he, bind, Except.bind, pure, Except.pure]
    · rw [hfl, if_neg hr]
    · rw [hfl, if_neg hr]
      rfl

end Datebook
